import Mathlib

/-!
Verification of the hook detection-and-verification engine of the `breath`
repository (src/hooks.rs, src/utils.rs), as a shallow embedding in Lean.

Modelling conventions:
* The filesystem, the process spawner and the clock are gathered into an
  `Env` record of deterministic functions; all theorems quantify over it.
* `std::process` exit codes are `Int`; a failed `spawn`/`wait`/`code()`
  (each guarded by `.expect(..)` in the source, hence a panic) is the
  `ExecResult.panicked` case, which propagates as `Outcome.panicked`.
* `MAIN_SEPARATOR_STR` is modelled as "/".
* Side effects (directory creation, log-file creation, console writes,
  command execution, table printing) are recorded in an effect trace;
  an effect is recorded only when the underlying operation succeeds.
* Rust's `HashMap` iteration order is unspecified; it is modelled by the
  environment function `hashIter`, constrained in theorems to be a
  permutation of the entry list.
-/

namespace Breath

/-- The `Language` enum of src/hooks.rs. -/
inductive Language where
  | Node
  | Rust
  | Java
  | Python
  | Go
  | Php
  | Ruby
  | CMake
  | CSharp
  | Kotlin
  | Swift
  | Dart
  | Elixir
deriving DecidableEq, Fintype

/-- The `Display` implementation for `Language` in src/hooks.rs. -/
def Language.name : Language → String
  | .Node => "Node"
  | .Rust => "Rust"
  | .Java => "Java"
  | .Python => "Python"
  | .Go => "Go"
  | .Php => "Php"
  | .Ruby => "Ruby"
  | .CMake => "CMake"
  | .CSharp => "CSharp"
  | .Kotlin => "Kotlin"
  | .Swift => "Swift"
  | .Dart => "Dart"
  | .Elixir => "Elixir"

/-- `CS_PROJ` in src/hooks.rs. -/
def CS_PROJ : String := "*.csproj"
/-- `MAVEN_POM` in src/hooks.rs. -/
def MAVEN_POM : String := "pom.xml"
/-- `GRADLE_BUILD` in src/hooks.rs (declared, unused in `LANGUAGES`). -/
def GRADLE_BUILD : String := "build.gradle"
/-- `RUST_FILE` in src/hooks.rs. -/
def RUST_FILE : String := "Cargo.toml"
/-- `GO_FILE` in src/hooks.rs. -/
def GO_FILE : String := "go.mod"
/-- `PHP_FILE` in src/hooks.rs. -/
def PHP_FILE : String := "composer.json"
/-- `NODE_FILE` in src/hooks.rs. -/
def NODE_FILE : String := "package.json"
/-- `CMAKE_FILE` in src/hooks.rs. -/
def CMAKE_FILE : String := "CMakeLists.txt"
/-- `ELIXIR_FILE` in src/hooks.rs. -/
def ELIXIR_FILE : String := "mix.exs"
/-- `RUBY_FILE` in src/hooks.rs. -/
def RUBY_FILE : String := "Gemfile"
/-- `DART_FILE` in src/hooks.rs. -/
def DART_FILE : String := "pubspec.yaml"
/-- `KOTLIN_FILE` in src/hooks.rs. -/
def KOTLIN_FILE : String := "build.gradle.kts"
/-- `SWIFT_FILE` in src/hooks.rs. -/
def SWIFT_FILE : String := "Package.swift"
/-- `PYTHON_FILE` in src/hooks.rs (declared, unused in `LANGUAGES`). -/
def PYTHON_FILE : String := "requirements.txt"

/-- The `LANGUAGES` marker-rule table of src/hooks.rs, in declaration order.
Note: it has 12 entries and contains no rule for `Language.Python`. -/
def LANGUAGES : List (Language × String) :=
  [ (Language.Rust, RUST_FILE),
    (Language.CSharp, CS_PROJ),
    (Language.Java, MAVEN_POM),
    (Language.Go, GO_FILE),
    (Language.Ruby, RUBY_FILE),
    (Language.Dart, DART_FILE),
    (Language.Kotlin, KOTLIN_FILE),
    (Language.Swift, SWIFT_FILE),
    (Language.Php, PHP_FILE),
    (Language.Node, NODE_FILE),
    (Language.CMake, CMAKE_FILE),
    (Language.Elixir, ELIXIR_FILE) ]

/-- The `Hook` struct of src/hooks.rs. -/
structure Hook where
  language : Language
  description : String
  success : String
  failure : String
  file : String
  command : String
deriving DecidableEq

/-- Result of spawning and waiting for one child process (`sh -c command`).
`panicked` covers a failing `spawn()`, `wait()` or `code()`, each of which is
unwrapped with `.expect(..)` in `utils::ok`, i.e. panics the process. -/
inductive ExecResult where
  | panicked
  | code (c : Int)
deriving DecidableEq

/-- The distinct `std::io::Error` values produced by the engine. -/
inductive RunErr where
  | ioSetup
  | noLanguageDetected
  | failedToRunHook
  | someChecksFailed
deriving DecidableEq

/-- Result of a fallible, possibly panicking computation. -/
inductive Outcome (α : Type) where
  | ok (a : α)
  | err (e : RunErr)
  | panicked
deriving DecidableEq

/-- One recorded side effect of the engine. -/
inductive Effect where
  | createDir (path : String)
  | createFile (path : String)
  | spinner (message : String)
  | persist (marker : String) (message : String)
  | runCmd (command : String)
  | printTable (rows : List (List String))
deriving DecidableEq

/-- The deterministic execution environment: filesystem, process spawner,
clock and hash-map iteration order. `capturedOut`/`capturedErr` record what
a hook's child process writes into its redirected log files; the engine
itself never reads them back. -/
structure Env where
  isFile : String → Bool
  glob : String → Option (List (Option String))
  createDirOk : String → Bool
  createFileOk : String → Bool
  exec : Hook → ExecResult
  capturedOut : Hook → String
  capturedErr : Hook → String
  hashIter : List (String × (Bool × Nat)) → List (String × (Bool × Nat))
  elapsed : Nat

/-- The inner loop of `add_if_exists` for the CSharp glob branch: one push of
`language` per `Ok` glob entry that is a file (src/utils.rs lines 573-579). -/
def pushMatches (env : Env) (language : Language) :
    List (Option String) → List Language → List Language
  | [], vec => vec
  | .none :: rest, vec => pushMatches env language rest vec
  | .some f :: rest, vec =>
      if env.isFile f then pushMatches env language rest (vec ++ [language])
      else pushMatches env language rest vec

/-- `add_if_exists` of src/utils.rs (lines 569-587). It always returns `Ok`,
so the `Result` wrapper is dropped. -/
def add_if_exists (env : Env) (file : String) (language : Language)
    (vec : List Language) : List Language :=
  if language = Language.CSharp then
    match env.glob file with
    | .some files => pushMatches env language files vec
    | .none => if env.isFile file then vec ++ [language] else vec
  else
    if env.isFile file then vec ++ [language] else vec

/-- `detect` of src/utils.rs (lines 589-598). Since `add_if_exists` never
returns an error, the early-return branch of the source is dead. -/
def detect (env : Env) : List Language :=
  LANGUAGES.foldl (fun all p => add_if_exists env p.2 p.1 all) []

/-- `ok` of src/utils.rs (lines 85-105).  The prepared `Command` (built in
`verify` as `sh -c <hook.command>` with redirected stdout/stderr) is passed
as the hook it was built from.  The source returns `Ok(())` on exit code 0
and `Err(failure)` otherwise; `verify` only tests `is_err()`, so the two
cases are modelled as `.ok true` / `.ok false`.  A failing spawn, wait or
exit-code retrieval is unwrapped with `.expect(..)` in the source, i.e. it
panics: `.panicked`.  The console receives the spinner start line, then the
persisted marker and message; the failure branch prints only the failure
message (the contents of the log files are never read back or dumped). -/
def ok (env : Env) (message : String) (h : Hook) (success failure : String) :
    List Effect × Outcome Bool :=
  match env.exec h with
  | .panicked => ([.spinner message], .panicked)
  | .code c =>
      if c = 0 then
        ([.spinner message, .runCmd h.command, .persist "✓" success], .ok true)
      else
        ([.spinner message, .runCmd h.command, .persist "!" failure], .ok false)

/-- The body of `verify`'s loop for one hook (src/utils.rs lines 234-265):
create `breathes/<lang>`, `breathes/<lang>/stdout`, `breathes/<lang>/stderr`,
then the stderr and stdout log files (in that argument-evaluation order),
then run `ok`.  Any creation failure propagates through `?` as an
`std::io::Error`. -/
def verifyHook (env : Env) (h : Hook) : List Effect × Outcome Bool :=
  let dLang := "breathes/" ++ h.language.name
  let dOut := dLang ++ "/stdout"
  let dErr := dLang ++ "/stderr"
  let fErr := dLang ++ "/stderr/" ++ h.file
  let fOut := dLang ++ "/stdout/" ++ h.file
  if env.createDirOk dLang then
    if env.createDirOk dOut then
      if env.createDirOk dErr then
        if env.createFileOk fErr then
          if env.createFileOk fOut then
            let r := ok env h.description h h.success h.failure
            ([.createDir dLang, .createDir dOut, .createDir dErr,
              .createFile fErr, .createFile fOut] ++ r.1, r.2)
          else
            ([.createDir dLang, .createDir dOut, .createDir dErr,
              .createFile fErr], .err .ioSetup)
        else ([.createDir dLang, .createDir dOut, .createDir dErr], .err .ioSetup)
      else ([.createDir dLang, .createDir dOut], .err .ioSetup)
    else ([.createDir dLang], .err .ioSetup)
  else ([], .err .ioSetup)

/-- The `for hook in &hooks` loop of `verify`, collecting the `status`
vector.  A setup error or a panic aborts the loop at once. -/
def verifyLoop (env : Env) : List Hook → List Effect × Outcome (List Bool)
  | [] => ([], .ok [])
  | h :: rest =>
      match verifyHook env h with
      | (tr, .ok b) =>
          match verifyLoop env rest with
          | (tr', .ok bs) => (tr ++ tr', .ok (b :: bs))
          | (tr', .err e) => (tr ++ tr', .err e)
          | (tr', .panicked) => (tr ++ tr', .panicked)
      | (tr, .err e) => (tr, .err e)
      | (tr, .panicked) => (tr, .panicked)

/-- `verify` of src/utils.rs (lines 228-270): create the top-level
`breathes` directory, run every hook, and return
`(status.contains(&false) == false, start.elapsed().as_millis())`. -/
def verify (env : Env) (hooks : List Hook) : List Effect × Outcome (Bool × Nat) :=
  if env.createDirOk "breathes" then
    match verifyLoop env hooks with
    | (tr, .ok statuses) =>
        (.createDir "breathes" :: tr,
         .ok ((statuses.contains false) == false, env.elapsed))
    | (tr, .err e) => (.createDir "breathes" :: tr, .err e)
    | (tr, .panicked) => (.createDir "breathes" :: tr, .panicked)
  else ([], .err .ioSetup)

/-- `Hook::get_hook` of src/hooks.rs (lines 79-502): the per-language hook
catalog, in declaration order.  The `&self` receiver of the source is unused
and dropped here.  Fields are given in the struct's declared order:
language, description, success, failure, file, command. -/
def get_hook (language : Language) : List Hook :=
  match language with
  | .Node =>
      [ ⟨.Node, "Checking for outdated packages in your project.",
         "No outdated packages found", "Outdated packages found",
         "outdated.log", "npm outdated"⟩,
        ⟨.Node, "Testings your project.",
         "Tests passed", "Tests failed", "test.log", "npm run test"⟩,
        ⟨.Node, "Auditing your project.",
         "No vulnerabilities founded", "Vulnerabilities founded",
         "audit.log", "npm audit"⟩ ]
  | .Rust =>
      [ ⟨.Rust, "Checking the configuration",
         "Project is valid", "Project not valid",
         "project.log", "cargo verify-project"⟩,
        ⟨.Rust, "Checking build capability",
         "Can build the project", "Cargo check detect failure",
         "check.log", "cargo check"⟩,
        ⟨.Rust, "Checking for security vulnerabilities",
         "No vulnerabilities found", "Vulnerabilities found",
         "audit.log", "cargo audit"⟩,
        ⟨.Rust, "Checks for formatting issues in your Rust code.",
         "Respect the code format standard", "Not respect code format standard",
         "fmt.log", "cargo fmt --check"⟩,
        ⟨.Rust, "Checks for linting issues and suggests code improvements.",
         "No vulnerabilities found", "Vulnerabilities found",
         "clippy.log",
         "cargo clippy -- -D clippy::all -W warnings -D clippy::pedantic -D clippy::nursery -A clippy::multiple_crate_versions"⟩,
        ⟨.Rust, "Testing your project.",
         "Tests passed", "Tests failed", "test.log", "cargo test --no-fail-fast"⟩,
        ⟨.Rust, "Generating documentation for your project.",
         "Documentation generated", "Failed to generate documentation",
         "doc.log", "cargo doc --no-deps --document-private-items"⟩,
        ⟨.Rust, "Checking for outdated packages in your project.",
         "No outdated packages found", "Outdated packages found",
         "outdated.log", "cargo outdated"⟩ ]
  | .Java =>
      [ ⟨.Java, "Checking for outdated packages in your project.",
         "No outdated packages found", "Outdated packages found",
         "outdated.log", "mvn versions:display-dependency-updates"⟩ ]
  | .Python =>
      [ ⟨.Python, "Checking for outdated packages in your project.",
         "No outdated packages found", "Outdated packages found",
         "outdated.log", "pip list --outdated"⟩,
        ⟨.Python, "Checking for security vulnerabilities.",
         "No vulnerabilities found", "Vulnerabilities found",
         "audit.log", "pip audit"⟩ ]
  | .Go =>
      [ ⟨.Go, "Testing your project.",
         "Tests passed", "Test failed", "test.log", "go test -v"⟩,
        ⟨.Go, "Checking for outdated packages.",
         "No outdated packages found", "Outdated packages found",
         "outdated.log", "go list -u -m -json all"⟩,
        ⟨.Go, "Checking for security vulnerabilities.",
         "No vulnerabilities found", "Vulnerabilities found",
         "audit.log", "go list -u -m -json all"⟩ ]
  | .Php =>
      [ ⟨.Php, "Checking platform requirements.",
         "All requirements are met", "Missing requirements found",
         "reqs.log", "composer check-platform-reqs"⟩,
        ⟨.Php, "Checking for security vulnerabilities.",
         "No vulnerabilities found", "Vulnerabilities found",
         "audit.log", "composer audit"⟩,
        ⟨.Php, "Checking outdated packages.",
         "No outdated packages found", "Outdated packages found",
         "outdated.log", "composer outdated"⟩,
        ⟨.Php, "Running tests for your PHP project.",
         "Tests passed", "Tests failed", "test.log", "composer run test"⟩ ]
  | .Ruby =>
      [ ⟨.Ruby, "Checking for outdated gems.",
         "No outdated gems found", "Outdated gems found",
         "outdated.log", "bundle outdated"⟩,
        ⟨.Ruby, "Checking for security vulnerabilities.",
         "No vulnerabilities found", "Vulnerabilities found",
         "audit.log", "bundle audit"⟩,
        ⟨.Ruby, "Running tests for your Ruby project.",
         "Tests passed", "Tests failed", "test.log", "bundle exec rspec"⟩ ]
  | .CMake =>
      [ ⟨.CMake, "Validating CMake configuration files.",
         "CMake configuration is valid", "CMake configuration validation failed",
         "cmake.log", "cmake ."⟩,
        ⟨.CMake, "Validating CMake configuration files.",
         "Build success", "Build failed", "make.log", "make"⟩,
        ⟨.CMake, "Validating CMake configuration files.",
         "Test success", "test failures", "test.log", "make test"⟩ ]
  | .CSharp =>
      [ ⟨.CSharp, "Checking for code formatting",
         "Code formatting is correct", "Code formatting issues found",
         "format.log", "dotnet format --verify-no-changes"⟩,
        ⟨.CSharp, "Running unit tests",
         "All tests passed", "Some tests failed", "test.log", "dotnet test"⟩,
        ⟨.CSharp, "Building the project",
         "Build successful", "Build failed", "build.log", "dotnet build"⟩,
        ⟨.CSharp, "Checking for dependency updates",
         "Dependencies are up to date", "Dependency updates available",
         "deps.log", "dotnet restore"⟩,
        ⟨.CSharp, "Checking for security vulnerabilities",
         "No vulnerabilities found", "Vulnerabilities found",
         "audit.log", "dotnet audit"⟩ ]
  | .Kotlin =>
      [ ⟨.Kotlin, "Checking for code formatting",
         "Code formatting is correct", "Code formatting issues found",
         "format.log", "ktlint --reporter=plain"⟩,
        ⟨.Kotlin, "Running unit tests",
         "All tests passed", "Some tests failed",
         "test.log", "kotlinc -script test.kts"⟩ ]
  | .Swift =>
      [ ⟨.Swift, "Checking for code formatting",
         "Code formatting is correct", "Code formatting issues found",
         "format.log", "swiftformat --lint ."⟩,
        ⟨.Swift, "Running unit tests",
         "All tests passed", "Some tests failed", "test.log", "swift test"⟩,
        ⟨.Swift, "Checking for security vulnerabilities",
         "No vulnerabilities found", "Vulnerabilities found",
         "audit.log", "swift package audit"⟩,
        ⟨.Swift, "Building the project",
         "Build successful", "Build failed", "build.log", "swift build"⟩,
        ⟨.Swift, "Running integration tests",
         "All integration tests passed", "Some integration tests failed",
         "integration.log", "swift test --parallel"⟩ ]
  | .Dart =>
      [ ⟨.Dart, "Checking for code formatting",
         "Code formatting is correct", "Code formatting issues found",
         "format.log", "dart format --set-exit-if-changed"⟩,
        ⟨.Dart, "Running unit tests",
         "All tests passed", "Some tests failed", "test.log", "dart test"⟩,
        ⟨.Dart, "Running integration tests",
         "All integration tests passed", "Some integration tests failed",
         "integration.log", "dart test --integration"⟩,
        ⟨.Dart, "Checking for security vulnerabilities",
         "No vulnerabilities found", "Vulnerabilities found",
         "audit.log", "dart pub audit"⟩,
        ⟨.Dart, "Building the project",
         "Build successful", "Build failed",
         "build.log", "dart compile exe bin/main.dart"⟩ ]
  | .Elixir =>
      [ ⟨.Elixir, "Checking for code formatting",
         "Code formatting is correct", "Code formatting issues found",
         "format.log", "mix format --check-formatted"⟩,
        ⟨.Elixir, "Running unit tests",
         "All tests passed", "Some tests failed", "test.log", "mix test"⟩,
        ⟨.Elixir, "Running integration tests",
         "All integration tests passed", "Some integration tests failed",
         "integration.log", "mix test --integration"⟩,
        ⟨.Elixir, "Checking for security vulnerabilities",
         "No vulnerabilities found", "Vulnerabilities found",
         "audit.log", "mix audit"⟩,
        ⟨.Elixir, "Building the project",
         "Build successful", "Build failed", "build.log", "mix compile"⟩ ]

/-- Modelled from the spec: `Hook::get`, called by `run_hook` in
src/utils.rs line 565, has no definition in the sources (the only catalog
accessor present is the method `Hook::get_hook`, whose `&self` receiver is
unused).  Per the spec's `hooksFor(language) -> ordered sequence of
HookSpec` — a pure lookup over the static per-language tables — it is
modelled as the catalog lookup `get_hook`. -/
def Hook.get (language : Language) : List Hook :=
  get_hook language

/-- `HashMap::insert` on the entry list: replace the value of an existing
key, otherwise append the new entry. -/
def insertMap (k : String) (v : Bool × Nat) :
    List (String × (Bool × Nat)) → List (String × (Bool × Nat))
  | [] => [(k, v)]
  | p :: rest => if p.1 = k then (k, v) :: rest else p :: insertMap k v rest

/-- `run_hook` of src/utils.rs (lines 564-568):
`all.insert(lang.to_string(), verify(Hook::get(lang))?)`. -/
def run_hook (env : Env) (lang : Language) (all : List (String × (Bool × Nat))) :
    List Effect × Outcome (List (String × (Bool × Nat))) :=
  match verify env (Hook.get lang) with
  | (tr, .ok r) => (tr, .ok (insertMap lang.name r all))
  | (tr, .err e) => (tr, .err e)
  | (tr, .panicked) => (tr, .panicked)

/-- The `for lang in &l` loop of `run_hooks` (src/utils.rs lines 353-357):
a failing `run_hook` is replaced by `Err("Failed to run hook")` and returned
at once. -/
def runHooksLoop (env : Env) :
    List Language → List (String × (Bool × Nat)) →
    List Effect × Outcome (List (String × (Bool × Nat)))
  | [], all => ([], .ok all)
  | lang :: rest, all =>
      match run_hook env lang all with
      | (tr, .ok all') =>
          (tr ++ (runHooksLoop env rest all').1, (runHooksLoop env rest all').2)
      | (tr, .err _) => (tr, .err .failedToRunHook)
      | (tr, .panicked) => (tr, .panicked)

/-- `run_hooks` of src/utils.rs (lines 339-397).  The first `table`
(the "Detected" listing) is shadowed before ever being printed and has no
observable effect.  The report rows are produced by iterating the
`HashMap` — an unspecified order, modelled by `env.hashIter` — and the
"All" row is appended from `response.contains(&false)`. -/
def run_hooks (env : Env) : List Effect × Outcome Int :=
  let l := detect env
  if l.isEmpty then ([], .err .noLanguageDetected)
  else
    match runHooksLoop env l [] with
    | (tr, .ok all) =>
        let ordered := env.hashIter all
        let rows := ordered.map (fun p =>
          [p.1, if p.2.1 then "Success" else "Failure", toString p.2.2 ++ "ms"])
        let response := ordered.map (fun p => p.2.1)
        let allRow :=
          if response.contains false then
            ["All", "Failure", toString env.elapsed ++ "ms"]
          else
            ["All", "Success", toString env.elapsed ++ "ms"]
        let table := ["Language", "Status", "Take"] :: (rows ++ [allRow])
        (tr ++ [.printTable table],
         if response.contains false then .err .someChecksFailed else .ok 0)
    | (tr, .err e) => (tr, .err e)
    | (tr, .panicked) => (tr, .panicked)

/-- The commands actually executed (in order) in an effect trace. -/
def commandsRun (tr : List Effect) : List String :=
  tr.filterMap fun e =>
    match e with
    | .runCmd c => some c
    | _ => none

/-- The tables printed (in order) in an effect trace. -/
def printedTables (tr : List Effect) : List (List (List String)) :=
  tr.filterMap fun e =>
    match e with
    | .printTable t => some t
    | _ => none

/-- All strings carried by one effect (used to state that captured log
content never reaches the console). -/
def effectTexts : Effect → List String
  | .createDir p => [p]
  | .createFile p => [p]
  | .spinner m => [m]
  | .persist mk m => [mk, m]
  | .runCmd c => [c]
  | .printTable t => t.flatten

/-- Whether an `Outcome` is `Ok`. -/
def Outcome.isOk {α : Type} : Outcome α → Bool
  | .ok _ => true
  | _ => false

/-- The `succeeded` flag of a language's `verify` outcome (`false` when the
run never produced one). -/
def succeededOf : Outcome (Bool × Nat) → Bool
  | .ok r => r.1
  | _ => false

/-- The `(succeeded, elapsed)` pair a language's `verify` returned
(defaulting when it returned an error or panicked). -/
def vres (env : Env) (l : Language) : Bool × Nat :=
  match (verify env (Hook.get l)).2 with
  | .ok r => r
  | _ => (false, 0)

/-- The hash map built by the `for lang in &l` loop, as a fold of inserts. -/
def foldInsert (env : Env) (langs : List Language)
    (m : List (String × (Bool × Nat))) : List (String × (Bool × Nat)) :=
  langs.foldl (fun acc l => insertMap l.name (vres env l) acc) m

/-- A concrete project root containing only `pom.xml` (Java detected),
with every resource operation succeeding, every command exiting 0, a
5 ms clock, and the identity hash-map iteration order. -/
def envAllPass : Env where
  isFile := fun f => f == "pom.xml"
  glob := fun _ => some []
  createDirOk := fun _ => true
  createFileOk := fun _ => true
  exec := fun _ => .code 0
  capturedOut := fun _ => ""
  capturedErr := fun _ => ""
  hashIter := id
  elapsed := 5

/-- A concrete project root containing `pom.xml` and `build.gradle.kts`
(Java and Kotlin detected, in that registry order), everything succeeding,
but with the hash map iterated in reverse entry order — one of the orders
an unseeded `HashMap` may produce. -/
def envTwoRev : Env where
  isFile := fun f => f == "pom.xml" || f == "build.gradle.kts"
  glob := fun _ => some []
  createDirOk := fun _ => true
  createFileOk := fun _ => true
  exec := fun _ => .code 0
  capturedOut := fun _ => ""
  capturedErr := fun _ => ""
  hashIter := List.reverse
  elapsed := 5

/-- A concrete empty project root: no marker file, no glob match. -/
def envEmpty : Env where
  isFile := fun _ => false
  glob := fun _ => some []
  createDirOk := fun _ => true
  createFileOk := fun _ => true
  exec := fun _ => .code 0
  capturedOut := fun _ => ""
  capturedErr := fun _ => ""
  hashIter := id
  elapsed := 5

/-- A concrete project root containing only `requirements.txt`. -/
def envReq : Env where
  isFile := fun f => f == "requirements.txt"
  glob := fun _ => some []
  createDirOk := fun _ => true
  createFileOk := fun _ => true
  exec := fun _ => .code 0
  capturedOut := fun _ => ""
  capturedErr := fun _ => ""
  hashIter := id
  elapsed := 5

/-- A concrete project root containing exactly two C# project files,
`a.csproj` and `b.csproj`, both matched by the `*.csproj` glob. -/
def envCsproj2 : Env where
  isFile := fun f => f == "a.csproj" || f == "b.csproj"
  glob := fun p => if p == "*.csproj" then some [some "a.csproj", some "b.csproj"] else some []
  createDirOk := fun _ => true
  createFileOk := fun _ => true
  exec := fun _ => .code 0
  capturedOut := fun _ => ""
  capturedErr := fun _ => ""
  hashIter := id
  elapsed := 5

/-- A concrete root with only `pom.xml`, where every log-file creation
fails (e.g. the `breathes` tree is not writable). -/
def envSetupFail : Env where
  isFile := fun f => f == "pom.xml"
  glob := fun _ => some []
  createDirOk := fun _ => true
  createFileOk := fun _ => false
  exec := fun _ => .code 0
  capturedOut := fun _ => ""
  capturedErr := fun _ => ""
  hashIter := id
  elapsed := 5

/-- A sample hook used by the `verify`-level theorems. -/
def hookA : Hook where
  language := .Rust
  description := "first check"
  success := "first ok"
  failure := "first bad"
  file := "a.log"
  command := "tool-a"

/-- A second sample hook. -/
def hookB : Hook where
  language := .Rust
  description := "second check"
  success := "second ok"
  failure := "second bad"
  file := "b.log"
  command := "tool-b"

/-- An environment in which `hookA` exits 0 and `hookB` exits 1. -/
def envMixed : Env where
  isFile := fun _ => false
  glob := fun _ => some []
  createDirOk := fun _ => true
  createFileOk := fun _ => true
  exec := fun h => if h.command == "tool-a" then .code 0 else .code 1
  capturedOut := fun _ => ""
  capturedErr := fun _ => ""
  hashIter := id
  elapsed := 5

/-- An environment in which spawning the shell for `hookA` fails
(`spawn()` returns `Err`, so `.expect("Fail to spawn thread")` panics),
while every other hook would exit 0. -/
def envSpawnFail : Env where
  isFile := fun _ => false
  glob := fun _ => some []
  createDirOk := fun _ => true
  createFileOk := fun _ => true
  exec := fun h => if h.command == "tool-a" then .panicked else .code 0
  capturedOut := fun _ => ""
  capturedErr := fun _ => ""
  hashIter := id
  elapsed := 5

/-- An environment in which `hookA`'s command exits 127 (the shell ran but
the toolchain binary was missing) and `hookB` exits 0. -/
def envMissingBinary : Env where
  isFile := fun _ => false
  glob := fun _ => some []
  createDirOk := fun _ => true
  createFileOk := fun _ => true
  exec := fun h => if h.command == "tool-a" then .code 127 else .code 0
  capturedOut := fun _ => ""
  capturedErr := fun _ => ""
  hashIter := id
  elapsed := 5

/-- A hook whose command fails after writing `boom` to stderr. -/
def hookBoom : Hook where
  language := .Rust
  description := "Testing"
  success := "Tests passed"
  failure := "Tests failed"
  file := "test.log"
  command := "failing-tool"

/-- An environment in which `hookBoom` exits 1 with `boom` captured in its
stderr log file. -/
def envBoom : Env where
  isFile := fun _ => false
  glob := fun _ => some []
  createDirOk := fun _ => true
  createFileOk := fun _ => true
  exec := fun h => if h.command == "failing-tool" then .code 1 else .code 0
  capturedOut := fun _ => ""
  capturedErr := fun h => if h.command == "failing-tool" then "boom" else ""
  hashIter := id
  elapsed := 5

/-- The five resource operations of one hook's loop body all succeed. -/
def hookSetupOk (env : Env) (h : Hook) : Bool :=
  env.createDirOk ("breathes/" ++ h.language.name) &&
  env.createDirOk ("breathes/" ++ h.language.name ++ "/stdout") &&
  env.createDirOk ("breathes/" ++ h.language.name ++ "/stderr") &&
  env.createFileOk ("breathes/" ++ h.language.name ++ "/stderr/" ++ h.file) &&
  env.createFileOk ("breathes/" ++ h.language.name ++ "/stdout/" ++ h.file)

/-- The setup effects of one hook's loop body when it succeeds. -/
def setupEffects (h : Hook) : List Effect :=
  [.createDir ("breathes/" ++ h.language.name),
   .createDir ("breathes/" ++ h.language.name ++ "/stdout"),
   .createDir ("breathes/" ++ h.language.name ++ "/stderr"),
   .createFile ("breathes/" ++ h.language.name ++ "/stderr/" ++ h.file),
   .createFile ("breathes/" ++ h.language.name ++ "/stdout/" ++ h.file)]

/-- The full effect trace of one hook when its setup succeeds. -/
def hookTraceOk (env : Env) (h : Hook) : List Effect :=
  setupEffects h ++ (ok env h.description h h.success h.failure).1

/-- The `status` entry `verify` records for one hook: `true` iff the
command's exit code was 0. -/
def hookStatus (env : Env) (h : Hook) : Bool :=
  match env.exec h with
  | .code c => c == 0
  | .panicked => false

lemma hookStatus_eq_true_iff (env : Env) (h : Hook) :
    hookStatus env h = true ↔ env.exec h = .code 0 := by
  unfold hookStatus
  cases hx : env.exec h with
  | panicked => simp
  | code c =>
      constructor
      · intro hc
        have : c = 0 := by simpa using hc
        simp [this]
      · intro hc
        have : c = 0 := by
          have := hc
          injection this
        simp [this]

lemma ok_snd (env : Env) (m : String) (h : Hook) (s f : String)
    (hnp : env.exec h ≠ .panicked) :
    (ok env m h s f).2 = .ok (hookStatus env h) := by
  unfold ok hookStatus
  cases hx : env.exec h with
  | panicked => exact absurd hx hnp
  | code c =>
      by_cases hc : c = 0
      · simp [hc]
      · simp [hc]

lemma commandsRun_ok (env : Env) (m : String) (h : Hook) (s f : String)
    (hnp : env.exec h ≠ .panicked) :
    commandsRun (ok env m h s f).1 = [h.command] := by
  unfold ok
  cases hx : env.exec h with
  | panicked => exact absurd hx hnp
  | code c =>
      by_cases hc : c = 0
      · simp [hc, commandsRun]
      · simp [hc, commandsRun]

lemma verifyHook_eq (env : Env) (h : Hook) (hsetup : hookSetupOk env h = true) :
    verifyHook env h =
      (hookTraceOk env h, (ok env h.description h h.success h.failure).2) := by
  unfold hookSetupOk at hsetup
  simp only [Bool.and_eq_true] at hsetup
  obtain ⟨⟨⟨⟨h1, h2⟩, h3⟩, h4⟩, h5⟩ := hsetup
  unfold verifyHook hookTraceOk setupEffects
  simp [h1, h2, h3, h4, h5]

lemma verifyHook_err (env : Env) (h : Hook) (hsetup : hookSetupOk env h = false) :
    (verifyHook env h).2 = .err .ioSetup ∧
    commandsRun (verifyHook env h).1 = [] := by
  unfold hookSetupOk at hsetup
  unfold verifyHook
  by_cases h1 : env.createDirOk ("breathes/" ++ h.language.name) <;>
    by_cases h2 : env.createDirOk ("breathes/" ++ h.language.name ++ "/stdout") <;>
      by_cases h3 : env.createDirOk ("breathes/" ++ h.language.name ++ "/stderr") <;>
        by_cases h4 : env.createFileOk ("breathes/" ++ h.language.name ++ "/stderr/" ++ h.file) <;>
          by_cases h5 : env.createFileOk ("breathes/" ++ h.language.name ++ "/stdout/" ++ h.file) <;>
            simp_all [commandsRun]

lemma verifyLoop_ok (env : Env) (hooks : List Hook)
    (hgood : ∀ h ∈ hooks, hookSetupOk env h = true ∧ env.exec h ≠ .panicked) :
    verifyLoop env hooks =
      ((hooks.map (hookTraceOk env)).flatten, .ok (hooks.map (hookStatus env))) := by
  induction hooks with
  | nil => simp [verifyLoop]
  | cons h rest ih =>
      have hh := hgood h (by simp)
      have hrest : ∀ h' ∈ rest, hookSetupOk env h' = true ∧ env.exec h' ≠ .panicked :=
        fun h' hm => hgood h' (by simp [hm])
      unfold verifyLoop
      rw [verifyHook_eq env h hh.1, ok_snd env h.description h h.success h.failure hh.2,
        ih hrest]
      simp

lemma verify_ok (env : Env) (hooks : List Hook)
    (hroot : env.createDirOk "breathes" = true)
    (hgood : ∀ h ∈ hooks, hookSetupOk env h = true ∧ env.exec h ≠ .panicked) :
    verify env hooks =
      (.createDir "breathes" :: (hooks.map (hookTraceOk env)).flatten,
       .ok (((hooks.map (hookStatus env)).contains false) == false, env.elapsed)) := by
  unfold verify
  rw [verifyLoop_ok env hooks hgood]
  simp [hroot]

lemma commandsRun_append (a b : List Effect) :
    commandsRun (a ++ b) = commandsRun a ++ commandsRun b := by
  simp [commandsRun, List.filterMap_append]

lemma commandsRun_setupEffects (h : Hook) : commandsRun (setupEffects h) = [] := by
  simp [commandsRun, setupEffects]

lemma commandsRun_hookTraceOk (env : Env) (h : Hook)
    (hnp : env.exec h ≠ .panicked) :
    commandsRun (hookTraceOk env h) = [h.command] := by
  unfold hookTraceOk
  rw [commandsRun_append, commandsRun_setupEffects,
    commandsRun_ok env h.description h h.success h.failure hnp]
  simp

lemma commandsRun_flatten_hookTraces (env : Env) (hooks : List Hook)
    (hnp : ∀ h ∈ hooks, env.exec h ≠ .panicked) :
    commandsRun (hooks.map (hookTraceOk env)).flatten =
      hooks.map (fun h => h.command) := by
  induction hooks with
  | nil => simp [commandsRun]
  | cons h rest ih =>
      simp only [List.map_cons, List.flatten_cons]
      rw [commandsRun_append, commandsRun_hookTraceOk env h (hnp h (by simp)),
        ih (fun h' hm => hnp h' (by simp [hm]))]
      simp

lemma contains_false_eq_false_iff (bs : List Bool) :
    ((bs.contains false) == false) = true ↔ ∀ b ∈ bs, b = true := by
  induction bs with
  | nil => simp
  | cons b rest ih =>
      cases b <;> simp_all [List.contains]

lemma language_name_inj : ∀ a b : Language, a.name = b.name → a = b := by
  decide

lemma count_pushMatches_ne (env : Env) (l l' : Language) (hne : l' ≠ l)
    (files : List (Option String)) (vec : List Language) :
    (pushMatches env l files vec).count l' = vec.count l' := by
  induction files generalizing vec with
  | nil => rfl
  | cons f rest ih =>
      cases f with
      | none => exact ih vec
      | some p =>
          unfold pushMatches
          by_cases hp : env.isFile p
          · simp only [hp, if_true]
            rw [ih]
            simp [List.count_append, hne]
          · simp only [hp, if_false]
            exact ih vec

lemma count_add_if_exists_ne (env : Env) (file : String) (l l' : Language)
    (vec : List Language) (hne : l' ≠ l) :
    (add_if_exists env file l vec).count l' = vec.count l' := by
  unfold add_if_exists
  by_cases hcs : l = Language.CSharp
  · simp only [hcs, if_true]
    cases hg : env.glob file with
    | some files =>
        have := count_pushMatches_ne env Language.CSharp l' (hcs ▸ hne) files vec
        simpa using this
    | none =>
        by_cases hf : env.isFile file
        · simp [hf, List.count_append, hcs ▸ hne]
        · simp [hf]
  · simp only [hcs, if_false]
    by_cases hf : env.isFile file
    · simp [hf, List.count_append, hne]
    · simp [hf]

lemma count_add_if_exists_self_le (env : Env) (file : String) (l : Language)
    (vec : List Language) (hcs : l ≠ Language.CSharp) :
    (add_if_exists env file l vec).count l ≤ vec.count l + 1 := by
  unfold add_if_exists
  simp only [hcs, if_false]
  by_cases hf : env.isFile file
  · simp [hf, List.count_append]
  · simp [hf]

lemma count_detect_fold (env : Env) (rules : List (Language × String))
    (vec : List Language) (l : Language) (hcs : l ≠ Language.CSharp) :
    ((rules.foldl (fun all p => add_if_exists env p.2 p.1 all) vec).count l) ≤
      vec.count l + (rules.map Prod.fst).count l := by
  induction rules generalizing vec with
  | nil => simp
  | cons r rest ih =>
      simp only [List.foldl_cons, List.map_cons]
      by_cases hr : r.1 = l
      · have h1 : (add_if_exists env r.2 r.1 vec).count l ≤ vec.count l + 1 := by
          rw [hr]; exact count_add_if_exists_self_le env r.2 l vec hcs
        calc ((rest.foldl (fun all p => add_if_exists env p.2 p.1 all)
                (add_if_exists env r.2 r.1 vec)).count l)
            ≤ (add_if_exists env r.2 r.1 vec).count l + (rest.map Prod.fst).count l :=
              ih _
          _ ≤ vec.count l + 1 + (rest.map Prod.fst).count l := by omega
          _ = vec.count l + ((r.1 :: rest.map Prod.fst).count l) := by
              simp [List.count_cons, hr]; omega
      · have h1 : (add_if_exists env r.2 r.1 vec).count l = vec.count l :=
          count_add_if_exists_ne env r.2 r.1 l vec (fun he => hr he.symm)
        calc ((rest.foldl (fun all p => add_if_exists env p.2 p.1 all)
                (add_if_exists env r.2 r.1 vec)).count l)
            ≤ (add_if_exists env r.2 r.1 vec).count l + (rest.map Prod.fst).count l :=
              ih _
          _ = vec.count l + ((r.1 :: rest.map Prod.fst).count l) := by
              simp [h1, List.count_cons, hr]

lemma mem_insertMap_self (k : String) (v : Bool × Nat)
    (m : List (String × (Bool × Nat))) : (k, v) ∈ insertMap k v m := by
  induction m with
  | nil => simp [insertMap]
  | cons p rest ih =>
      unfold insertMap
      by_cases hp : p.1 = k
      · simp [hp]
      · simp [hp, ih]

lemma mem_insertMap_of_mem (k : String) (v : Bool × Nat)
    (p : String × (Bool × Nat)) (m : List (String × (Bool × Nat)))
    (hp : p ∈ m) (hcase : p.1 ≠ k ∨ p = (k, v)) : p ∈ insertMap k v m := by
  induction m with
  | nil => simp at hp
  | cons q rest ih =>
      unfold insertMap
      by_cases hq : q.1 = k
      · simp only [hq, if_true]
        rcases List.mem_cons.mp hp with hpq | hpr
        · rcases hcase with hne | heq
          · exact absurd (hpq ▸ hq) hne
          · simp [heq]
        · simp [hpr]
      · simp only [hq, if_false]
        rcases List.mem_cons.mp hp with hpq | hpr
        · simp [hpq]
        · simp [ih hpr]

lemma mem_of_mem_insertMap (k : String) (v : Bool × Nat)
    (p : String × (Bool × Nat)) (m : List (String × (Bool × Nat)))
    (hp : p ∈ insertMap k v m) : p = (k, v) ∨ p ∈ m := by
  induction m with
  | nil => simpa [insertMap] using hp
  | cons q rest ih =>
      unfold insertMap at hp
      by_cases hq : q.1 = k
      · simp only [hq, if_true] at hp
        rcases List.mem_cons.mp hp with h1 | h2
        · exact Or.inl h1
        · exact Or.inr (List.mem_cons.mpr (Or.inr h2))
      · simp only [hq, if_false] at hp
        rcases List.mem_cons.mp hp with h1 | h2
        · exact Or.inr (List.mem_cons.mpr (Or.inl h1))
        · rcases ih h2 with h3 | h4
          · exact Or.inl h3
          · exact Or.inr (List.mem_cons.mpr (Or.inr h4))

lemma keys_insertMap (k : String) (v : Bool × Nat)
    (m : List (String × (Bool × Nat))) :
    (insertMap k v m).map Prod.fst =
      if k ∈ m.map Prod.fst then m.map Prod.fst else m.map Prod.fst ++ [k] := by
  induction m with
  | nil => simp [insertMap]
  | cons q rest ih =>
      unfold insertMap
      by_cases hq : q.1 = k
      · simp [hq]
      · have hqk : ¬ k = q.1 := fun he => hq he.symm
        have hk : (k ∈ q.1 :: rest.map Prod.fst) ↔ k ∈ rest.map Prod.fst := by
          simp [hqk]
        by_cases hmem : k ∈ rest.map Prod.fst
        · simp [hq, ih, hmem, hk]
        · simp [hq, ih, hmem, hk]

lemma keys_nodup_insertMap (k : String) (v : Bool × Nat)
    (m : List (String × (Bool × Nat))) (h : (m.map Prod.fst).Nodup) :
    ((insertMap k v m).map Prod.fst).Nodup := by
  rw [keys_insertMap]
  by_cases hmem : k ∈ m.map Prod.fst
  · simpa [hmem] using h
  · simp only [hmem, if_false]
    simpa [List.nodup_append, hmem] using h

lemma mem_keys_insertMap (k' k : String) (v : Bool × Nat)
    (m : List (String × (Bool × Nat))) :
    k' ∈ (insertMap k v m).map Prod.fst ↔ k' = k ∨ k' ∈ m.map Prod.fst := by
  rw [keys_insertMap]
  by_cases hmem : k ∈ m.map Prod.fst
  · simp only [hmem, if_true]
    constructor
    · exact Or.inr
    · rintro (h1 | h2)
      · exact h1 ▸ hmem
      · exact h2
  · simp [hmem, or_comm]

lemma mem_foldInsert (env : Env) (langs : List Language)
    (m : List (String × (Bool × Nat))) (p : String × (Bool × Nat))
    (hp : p ∈ foldInsert env langs m) :
    p ∈ m ∨ ∃ l ∈ langs, p = (l.name, vres env l) := by
  induction langs generalizing m with
  | nil => exact Or.inl hp
  | cons l rest ih =>
      have hstep : foldInsert env (l :: rest) m =
          foldInsert env rest (insertMap l.name (vres env l) m) := rfl
      rw [hstep] at hp
      rcases ih _ hp with h1 | h2
      · rcases mem_of_mem_insertMap _ _ _ _ h1 with h3 | h4
        · exact Or.inr ⟨l, by simp, h3⟩
        · exact Or.inl h4
      · obtain ⟨l', hl', he⟩ := h2
        exact Or.inr ⟨l', by simp [hl'], he⟩

lemma mem_foldInsert_preserved (env : Env) (langs : List Language)
    (m : List (String × (Bool × Nat))) (k : String) (v : Bool × Nat)
    (hkv : (k, v) ∈ m)
    (hcomp : ∀ l ∈ langs, l.name = k → vres env l = v) :
    (k, v) ∈ foldInsert env langs m := by
  induction langs generalizing m with
  | nil => exact hkv
  | cons l rest ih =>
      have hstep : foldInsert env (l :: rest) m =
          foldInsert env rest (insertMap l.name (vres env l) m) := rfl
      rw [hstep]
      refine ih _ ?_ (fun l' hl' he => hcomp l' (by simp [hl']) he)
      by_cases hn : l.name = k
      · have hv : vres env l = v := hcomp l (by simp) hn
        exact mem_insertMap_of_mem _ _ _ _ hkv (Or.inr (by rw [hn, hv]))
      · exact mem_insertMap_of_mem _ _ _ _ hkv (Or.inl (by simpa using fun he => hn he.symm))

lemma self_mem_foldInsert (env : Env) (langs : List Language)
    (m : List (String × (Bool × Nat))) (l : Language) (hl : l ∈ langs) :
    (l.name, vres env l) ∈ foldInsert env langs m := by
  induction langs generalizing m with
  | nil => simp at hl
  | cons l0 rest ih =>
      have hstep : foldInsert env (l0 :: rest) m =
          foldInsert env rest (insertMap l0.name (vres env l0) m) := rfl
      rw [hstep]
      rcases List.mem_cons.mp hl with he | hm
      · subst he
        exact mem_foldInsert_preserved env rest _ _ _ (mem_insertMap_self _ _ _)
          (fun l' _ hn => by rw [language_name_inj l' l hn])
      · exact ih _ hm

lemma keys_nodup_foldInsert (env : Env) (langs : List Language)
    (m : List (String × (Bool × Nat))) (h : (m.map Prod.fst).Nodup) :
    ((foldInsert env langs m).map Prod.fst).Nodup := by
  induction langs generalizing m with
  | nil => exact h
  | cons l rest ih => exact ih _ (keys_nodup_insertMap _ _ _ h)

lemma mem_keys_foldInsert (env : Env) (langs : List Language)
    (m : List (String × (Bool × Nat))) (k' : String) :
    k' ∈ (foldInsert env langs m).map Prod.fst ↔
      k' ∈ m.map Prod.fst ∨ ∃ l ∈ langs, k' = l.name := by
  induction langs generalizing m with
  | nil => simp [foldInsert]
  | cons l rest ih =>
      have hstep : foldInsert env (l :: rest) m =
          foldInsert env rest (insertMap l.name (vres env l) m) := rfl
      rw [hstep, ih, mem_keys_insertMap]
      constructor
      · rintro ((h1 | h2) | h3)
        · exact Or.inr ⟨l, by simp, h1⟩
        · exact Or.inl h2
        · obtain ⟨l', hl', he⟩ := h3
          exact Or.inr ⟨l', by simp [hl'], he⟩
      · rintro (h1 | h2)
        · exact Or.inl (Or.inr h1)
        · obtain ⟨l', hl', he⟩ := h2
          rcases List.mem_cons.mp hl' with h3 | h4
          · exact Or.inl (Or.inl (h3 ▸ he))
          · exact Or.inr ⟨l', h4, he⟩

lemma succeededOf_eq_vres (env : Env) (l : Language) :
    succeededOf (verify env (Hook.get l)).2 = (vres env l).1 := by
  unfold succeededOf vres
  cases (verify env (Hook.get l)).2 <;> rfl

lemma isOk_exists {α : Type} (o : Outcome α) (h : o.isOk = true) :
    ∃ r, o = .ok r := by
  cases o with
  | ok r => exact ⟨r, rfl⟩
  | err e => simp [Outcome.isOk] at h
  | panicked => simp [Outcome.isOk] at h

lemma runHooksLoop_ok (env : Env) (langs : List Language)
    (m : List (String × (Bool × Nat)))
    (hok : ∀ l ∈ langs, ((verify env (Hook.get l)).2).isOk = true) :
    runHooksLoop env langs m =
      ((langs.map (fun l => (verify env (Hook.get l)).1)).flatten,
       .ok (foldInsert env langs m)) := by
  induction langs generalizing m with
  | nil => simp [runHooksLoop, foldInsert]
  | cons l rest ih =>
      obtain ⟨r, hr⟩ := isOk_exists _ (hok l (by simp))
      have hrest : ∀ l' ∈ rest, ((verify env (Hook.get l')).2).isOk = true :=
        fun l' hm => hok l' (by simp [hm])
      have hv : vres env l = r := by unfold vres; rw [hr]
      have hverify : verify env (Hook.get l) =
          ((verify env (Hook.get l)).1, Outcome.ok r) := by
        rw [← hr]
      have hstep : foldInsert env (l :: rest) m =
          foldInsert env rest (insertMap l.name (vres env l) m) := rfl
      unfold runHooksLoop run_hook
      rw [hverify]
      simp [ih _ hrest, hstep, hv]

lemma printedTables_append (a b : List Effect) :
    printedTables (a ++ b) = printedTables a ++ printedTables b := by
  simp [printedTables, List.filterMap_append]

lemma printedTables_ok (env : Env) (m : String) (h : Hook) (s f : String) :
    printedTables (ok env m h s f).1 = [] := by
  unfold ok
  cases env.exec h with
  | panicked => simp [printedTables]
  | code c =>
      by_cases hc : c = 0 <;> simp [hc, printedTables]

lemma printedTables_verifyHook (env : Env) (h : Hook) :
    printedTables (verifyHook env h).1 = [] := by
  have hok : printedTables (ok env h.description h h.success h.failure).1 = [] :=
    printedTables_ok env h.description h h.success h.failure
  unfold verifyHook
  by_cases h1 : env.createDirOk ("breathes/" ++ h.language.name) <;>
    by_cases h2 : env.createDirOk ("breathes/" ++ h.language.name ++ "/stdout") <;>
      by_cases h3 : env.createDirOk ("breathes/" ++ h.language.name ++ "/stderr") <;>
        by_cases h4 : env.createFileOk ("breathes/" ++ h.language.name ++ "/stderr/" ++ h.file) <;>
          by_cases h5 : env.createFileOk ("breathes/" ++ h.language.name ++ "/stdout/" ++ h.file) <;>
            simp_all [printedTables, List.filterMap_append]

lemma printedTables_verifyLoop (env : Env) (hooks : List Hook) :
    printedTables (verifyLoop env hooks).1 = [] := by
  induction hooks with
  | nil => simp [verifyLoop, printedTables]
  | cons h rest ih =>
      unfold verifyLoop
      cases hvh : verifyHook env h with
      | mk tr o =>
          have htr : printedTables tr = [] := by
            have := printedTables_verifyHook env h
            rw [hvh] at this
            exact this
          cases o with
          | ok b =>
              cases hvl : verifyLoop env rest with
              | mk tr' o' =>
                  have htr' : printedTables tr' = [] := by
                    have := ih
                    rw [hvl] at this
                    exact this
                  cases o' <;> simp [printedTables_append, htr, htr']
          | err e => simpa using htr
          | panicked => simpa using htr

lemma printedTables_verify (env : Env) (hooks : List Hook) :
    printedTables (verify env hooks).1 = [] := by
  unfold verify
  by_cases hroot : env.createDirOk "breathes"
  · simp only [hroot, if_true]
    cases hvl : verifyLoop env hooks with
    | mk tr o =>
        have htr : printedTables tr = [] := by
          have := printedTables_verifyLoop env hooks
          rw [hvl] at this
          exact this
        cases o <;> simp [printedTables, htr] <;>
          simpa [printedTables] using htr
  · simp [hroot, printedTables]

lemma printedTables_flatten_verify (env : Env) (langs : List Language) :
    printedTables ((langs.map (fun l => (verify env (Hook.get l)).1)).flatten) = [] := by
  induction langs with
  | nil => simp [printedTables]
  | cons l rest ih =>
      simp only [List.map_cons, List.flatten_cons]
      rw [printedTables_append, printedTables_verify, ih]
      rfl

lemma list_contains_iff_mem {α : Type} [DecidableEq α] (bs : List α) (a : α) :
    bs.contains a = true ↔ a ∈ bs := by
  simp [List.contains, List.elem_iff]

lemma exists_false_foldInsert_iff (env : Env) (langs : List Language) :
    (∃ p ∈ foldInsert env langs [], p.2.1 = false) ↔
      ∃ l ∈ langs, (vres env l).1 = false := by
  constructor
  · rintro ⟨p, hp, hfalse⟩
    rcases mem_foldInsert env langs [] p hp with h1 | h2
    · simp at h1
    · obtain ⟨l, hl, he⟩ := h2
      exact ⟨l, hl, by rw [he] at hfalse; exact hfalse⟩
  · rintro ⟨l, hl, hfalse⟩
    exact ⟨(l.name, vres env l), self_mem_foldInsert env langs [] l hl, hfalse⟩

lemma response_contains_iff (env : Env)
    (hperm : ∀ m, (env.hashIter m).Perm m) :
    (((env.hashIter (foldInsert env (detect env) [])).map
        (fun p => p.2.1)).contains false = true) ↔
      ¬ ((detect env).all
          (fun l => succeededOf (verify env (Hook.get l)).2) = true) := by
  rw [list_contains_iff_mem]
  rw [List.Perm.mem_iff ((hperm (foldInsert env (detect env) [])).map (fun p => p.2.1))]
  rw [List.mem_map]
  constructor
  · rintro ⟨p, hp, hfalse⟩
    intro hall
    rw [List.all_eq_true] at hall
    obtain ⟨l, hl, he⟩ := (exists_false_foldInsert_iff env (detect env)).mp ⟨p, hp, hfalse⟩
    have := hall l hl
    rw [succeededOf_eq_vres] at this
    rw [this] at he
    exact absurd he (by simp)
  · intro hnall
    rw [List.all_eq_true] at hnall
    push_neg at hnall
    obtain ⟨l, hl, hne⟩ := hnall
    rw [succeededOf_eq_vres] at hne
    have hfalse : (vres env l).1 = false := by
      cases hv : (vres env l).1
      · rfl
      · exact absurd hv hne
    obtain ⟨p, hp, he⟩ := (exists_false_foldInsert_iff env (detect env)).mpr ⟨l, hl, hfalse⟩
    exact ⟨p, hp, he⟩

lemma run_hooks_eval (env : Env)
    (hne : detect env ≠ [])
    (hok : ∀ l ∈ detect env, ((verify env (Hook.get l)).2).isOk = true) :
    run_hooks env =
      (((detect env).map (fun l => (verify env (Hook.get l)).1)).flatten ++
        [Effect.printTable (["Language", "Status", "Take"] ::
          ((env.hashIter (foldInsert env (detect env) [])).map (fun p =>
            [p.1, if p.2.1 then "Success" else "Failure", toString p.2.2 ++ "ms"]) ++
          [if ((env.hashIter (foldInsert env (detect env) [])).map
                (fun p => p.2.1)).contains false then
              ["All", "Failure", toString env.elapsed ++ "ms"]
            else ["All", "Success", toString env.elapsed ++ "ms"]]))],
       if ((env.hashIter (foldInsert env (detect env) [])).map
            (fun p => p.2.1)).contains false then
         Outcome.err RunErr.someChecksFailed
       else Outcome.ok 0) := by
  have hemp : (detect env).isEmpty = false := by
    cases hd : detect env with
    | nil => exact absurd hd hne
    | cons a as => rfl
  unfold run_hooks
  simp only [hemp, Bool.false_eq_true, if_false]
  rw [runHooksLoop_ok env (detect env) [] hok]

lemma verifyLoop_err (env : Env) (pre2 post2 : List Hook) (h : Hook)
    (hgood : ∀ h' ∈ pre2, hookSetupOk env h' = true ∧ env.exec h' ≠ .panicked)
    (hbad : hookSetupOk env h = false) :
    (verifyLoop env (pre2 ++ h :: post2)).2 = .err .ioSetup ∧
    commandsRun (verifyLoop env (pre2 ++ h :: post2)).1 =
      pre2.map (fun x => x.command) := by
  induction pre2 with
  | nil =>
      obtain ⟨he, hc⟩ := verifyHook_err env h hbad
      simp only [List.nil_append]
      unfold verifyLoop
      cases hvh : verifyHook env h with
      | mk tr o =>
          rw [hvh] at he hc
          simp only at he hc
          rw [he]
          simpa using hc
  | cons h0 rest ih =>
      have hh0 := hgood h0 (by simp)
      have hrest : ∀ h' ∈ rest, hookSetupOk env h' = true ∧ env.exec h' ≠ .panicked :=
        fun h' hm => hgood h' (by simp [hm])
      obtain ⟨ihe, ihc⟩ := ih hrest
      simp only [List.cons_append]
      unfold verifyLoop
      rw [verifyHook_eq env h0 hh0.1, ok_snd env h0.description h0 h0.success h0.failure hh0.2]
      cases hvl : verifyLoop env (rest ++ h :: post2) with
      | mk tr' o' =>
          rw [hvl] at ihe ihc
          simp only at ihe ihc
          subst ihe
          simp [commandsRun_append, commandsRun_hookTraceOk env h0 hh0.2, ihc]

lemma runHooksLoop_err (env : Env) (pre post : List Language) (lang : Language)
    (m : List (String × (Bool × Nat)))
    (hpre : ∀ l ∈ pre, ((verify env (Hook.get l)).2).isOk = true)
    (hfail : ∃ e, (verify env (Hook.get lang)).2 = .err e) :
    (runHooksLoop env (pre ++ lang :: post) m).2 = .err .failedToRunHook ∧
    (runHooksLoop env (pre ++ lang :: post) m).1 =
      (pre.map (fun l => (verify env (Hook.get l)).1)).flatten ++
        (verify env (Hook.get lang)).1 := by
  induction pre generalizing m with
  | nil =>
      obtain ⟨e, he⟩ := hfail
      simp only [List.nil_append, List.map_nil, List.flatten_nil]
      unfold runHooksLoop run_hook
      cases hv : verify env (Hook.get lang) with
      | mk tr o =>
          rw [hv] at he
          simp only at he
          subst he
          simp
  | cons l0 rest ih =>
      obtain ⟨r, hr⟩ := isOk_exists _ (hpre l0 (by simp))
      have hrest : ∀ l' ∈ rest, ((verify env (Hook.get l')).2).isOk = true :=
        fun l' hm => hpre l' (by simp [hm])
      obtain ⟨ihe, ihc⟩ := ih (insertMap l0.name r m) hrest
      have hverify : verify env (Hook.get l0) =
          ((verify env (Hook.get l0)).1, Outcome.ok r) := by
        rw [← hr]
      simp only [List.cons_append]
      unfold runHooksLoop run_hook
      rw [hverify]
      simp [ihe, ihc, List.append_assoc]

lemma getLast_cons_concat {α : Type} (a : α) (l : List α) (b : α) :
    (a :: (l ++ [b])).getLast? = some b := by
  rw [← List.cons_append, List.getLast?_concat]

lemma drop_one_cons {α : Type} (a : α) (t : List α) : (a :: t).drop 1 = t := rfl

lemma filterMap_head_rows (m : List (String × (Bool × Nat))) :
    ((m.map (fun p => [p.1, if p.2.1 then "Success" else "Failure",
        toString p.2.2 ++ "ms"])).filterMap List.head?) = m.map Prod.fst := by
  induction m with
  | nil => rfl
  | cons p rest ih => simp [ih]

lemma commandsRun_flatten (ls : List (List Effect)) :
    commandsRun ls.flatten = (ls.map commandsRun).flatten := by
  induction ls with
  | nil => rfl
  | cons a rest ih =>
      simp only [List.flatten_cons, List.map_cons]
      rw [commandsRun_append, ih]

/-- C10: for the empty list of hooks, `verify` returns `succeeded = true`
(the vacuous AND over zero outcomes) together with an elapsed duration, and
its only side effect is creating the top-level `breathes` directory: no
per-language directory and no log file is created. -/
theorem c10_verify_empty (env : Env)
    (hroot : env.createDirOk "breathes" = true) :
    verify env [] = ([Effect.createDir "breathes"], .ok (true, env.elapsed)) := by
  unfold verify verifyLoop
  simp [hroot]

/-- Witness for C10 at a concrete environment. -/
theorem c10_verify_empty_witness :
    verify envAllPass [] = ([Effect.createDir "breathes"], .ok (true, 5)) :=
  c10_verify_empty envAllPass rfl

/-- C1: for every non-empty hook list whose resource setup succeeds and
whose shell processes spawn, `verify` executes every hook's command in
declaration order regardless of earlier failures, and the returned
succeeded flag is true iff every hook's command exited with code 0. -/
theorem c1_verify_runs_all_hooks (env : Env) (hooks : List Hook)
    (_hne : hooks ≠ [])
    (hroot : env.createDirOk "breathes" = true)
    (hgood : ∀ h ∈ hooks, hookSetupOk env h = true ∧ env.exec h ≠ .panicked) :
    ∃ b : Bool,
      (verify env hooks).2 = .ok (b, env.elapsed) ∧
      commandsRun (verify env hooks).1 = hooks.map (fun h => h.command) ∧
      (b = true ↔ ∀ h ∈ hooks, env.exec h = .code 0) := by
  rw [verify_ok env hooks hroot hgood]
  refine ⟨((hooks.map (hookStatus env)).contains false) == false, rfl, ?_, ?_⟩
  · have hcons : commandsRun
        (Effect.createDir "breathes" :: (hooks.map (hookTraceOk env)).flatten) =
        commandsRun ((hooks.map (hookTraceOk env)).flatten) := by
      simp [commandsRun]
    rw [hcons, commandsRun_flatten_hookTraces env hooks (fun h hm => (hgood h hm).2)]
  · rw [contains_false_eq_false_iff]
    constructor
    · intro hall h hm
      have := hall (hookStatus env h) (List.mem_map_of_mem _ hm)
      exact (hookStatus_eq_true_iff env h).mp this
    · intro hall b hb
      obtain ⟨h, hm, he⟩ := List.mem_map.mp hb
      rw [← he]
      exact (hookStatus_eq_true_iff env h).mpr (hall h hm)

/-- Witness for C1 at a concrete environment in which the first hook exits
0 and the second exits 1. -/
theorem c1_verify_runs_all_hooks_witness :
    ∃ b : Bool,
      (verify envMixed [hookA, hookB]).2 = .ok (b, envMixed.elapsed) ∧
      commandsRun (verify envMixed [hookA, hookB]).1 =
        [hookA, hookB].map (fun h => h.command) ∧
      (b = true ↔ ∀ h ∈ [hookA, hookB], envMixed.exec h = .code 0) :=
  c1_verify_runs_all_hooks envMixed [hookA, hookB] (by decide) (by decide)
    (by decide)

/-- C4 counterexample: when the shell process for the first hook cannot be
spawned, `ok` panics (its `.expect("Fail to spawn thread")`), so `verify`
aborts with a panic instead of recording a normal hook failure, and the
second hook never executes. -/
theorem c4_spawn_failure_counterexample :
    (verify envSpawnFail [hookA, hookB]).2 = .panicked ∧
    commandsRun (verify envSpawnFail [hookA, hookB]).1 = [] := by
  decide

/-- C4 amended: a missing toolchain binary does not make the spawn fail —
hooks run through `sh -c`, so the shell spawns and exits non-zero (for
example 127), which is recorded as a normal hook failure while every other
hook still executes; only a failure to spawn the shell itself panics. -/
theorem c4_missing_binary_is_normal_failure (env : Env)
    (pre post : List Hook) (h : Hook) (c : Int)
    (hroot : env.createDirOk "breathes" = true)
    (hgood : ∀ h' ∈ pre ++ h :: post,
      hookSetupOk env h' = true ∧ env.exec h' ≠ .panicked)
    (hc : env.exec h = .code c) (hcne : c ≠ 0) :
    (verify env (pre ++ h :: post)).2 = .ok (false, env.elapsed) ∧
    commandsRun (verify env (pre ++ h :: post)).1 =
      (pre ++ h :: post).map (fun x => x.command) := by
  rw [verify_ok env _ hroot hgood]
  constructor
  · have hhs : hookStatus env h = false := by
      unfold hookStatus
      rw [hc]
      simpa using hcne
    have hmem : false ∈ (pre ++ h :: post).map (hookStatus env) := by
      rw [← hhs]
      exact List.mem_map_of_mem _ (by simp)
    have hcon : ((pre ++ h :: post).map (hookStatus env)).contains false = true := by
      rw [list_contains_iff_mem]
      exact hmem
    rw [hcon]
    rfl
  · have hcons : commandsRun
        (Effect.createDir "breathes" ::
          ((pre ++ h :: post).map (hookTraceOk env)).flatten) =
        commandsRun (((pre ++ h :: post).map (hookTraceOk env)).flatten) := by
      simp [commandsRun]
    rw [hcons, commandsRun_flatten_hookTraces env _ (fun h' hm => (hgood h' hm).2)]

/-- Witness for the amended C4: the first hook's command exits 127 (binary
missing), the second hook still runs, and the language outcome is a normal
failure. -/
theorem c4_missing_binary_witness :
    (verify envMissingBinary (([] : List Hook) ++ hookA :: [hookB])).2 =
      .ok (false, envMissingBinary.elapsed) ∧
    commandsRun (verify envMissingBinary (([] : List Hook) ++ hookA :: [hookB])).1 =
      (([] : List Hook) ++ hookA :: [hookB]).map (fun x => x.command) :=
  c4_missing_binary_is_normal_failure envMissingBinary [] [hookB] hookA 127
    (by decide) (by decide) (by decide) (by decide)

/-- C3 counterexample: with two files matching the `*.csproj` glob, each
match pushes `CSharp` again, so `detect` returns a sequence with a
duplicated language. -/
theorem c3_duplicate_csharp_counterexample :
    detect envCsproj2 = [Language.CSharp, Language.CSharp] ∧
    ¬ (detect envCsproj2).Nodup := by
  decide

/-- C3 amended: every language other than `CSharp` appears at most once in
the detected sequence (its single exact-path rule pushes at most one
entry); only `CSharp` can be duplicated, once per matching `*.csproj`
file. -/
theorem c3_no_duplicates_except_csharp (env : Env) (l : Language)
    (hcs : l ≠ Language.CSharp) :
    (detect env).count l ≤ 1 := by
  have hb : (LANGUAGES.map Prod.fst).count l ≤ 1 := by
    cases l <;> decide
  have hfold := count_detect_fold env LANGUAGES [] l hcs
  unfold detect
  calc (LANGUAGES.foldl (fun all p => add_if_exists env p.2 p.1 all) []).count l
      ≤ List.count l [] + (LANGUAGES.map Prod.fst).count l := hfold
    _ ≤ 1 := by simpa using hb

/-- Witness for the amended C3 at a concrete environment and language. -/
theorem c3_no_duplicates_except_csharp_witness :
    (detect envCsproj2).count Language.Rust ≤ 1 :=
  c3_no_duplicates_except_csharp envCsproj2 Language.Rust (by decide)

/-- C7 (code bug): `PYTHON_FILE` is declared as `requirements.txt` and
Python hooks exist in the catalog, but the `LANGUAGES` table has no rule
for `Language.Python` or for `requirements.txt`, so a project root
containing only `requirements.txt` detects nothing. -/
theorem c7_requirements_txt_not_detected :
    PYTHON_FILE = "requirements.txt" ∧
    (∀ p ∈ LANGUAGES, p.1 ≠ Language.Python ∧ p.2 ≠ PYTHON_FILE) ∧
    detect envReq = [] := by
  decide

/-- C8: when `detect` returns the empty sequence, `run_hooks` fails with
the `NoLanguageDetected` error with an empty effect trace: no hook command
runs, no directory or log file is created, and no report is printed. -/
theorem c8_no_language_detected (env : Env) (h : detect env = []) :
    run_hooks env = ([], .err .noLanguageDetected) := by
  unfold run_hooks
  simp [h]

/-- Witness for C8 at a concrete empty project root. -/
theorem c8_no_language_detected_witness :
    run_hooks envEmpty = ([], .err .noLanguageDetected) :=
  c8_no_language_detected envEmpty (by decide)

/-- C2: with at least one detected language and every language's `verify`
completing, `run_hooks` returns `Ok(0)` iff every detected language
succeeded; when any language failed it returns the aggregate-failure error
("Some checks failed."), and the printed report's last row is the "All"
row, "Success" iff every per-language outcome succeeded. -/
theorem c2_run_hooks_aggregate (env : Env)
    (hne : detect env ≠ [])
    (hperm : ∀ m, (env.hashIter m).Perm m)
    (hok : ∀ l ∈ detect env, ((verify env (Hook.get l)).2).isOk = true) :
    ((run_hooks env).2 = Outcome.ok 0 ↔
       (detect env).all (fun l => succeededOf (verify env (Hook.get l)).2) = true) ∧
    ((detect env).all (fun l => succeededOf (verify env (Hook.get l)).2) = false →
       (run_hooks env).2 = Outcome.err RunErr.someChecksFailed) ∧
    ∀ tbl ∈ printedTables (run_hooks env).1,
      tbl.getLast? = some
        ["All",
         if (detect env).all (fun l => succeededOf (verify env (Hook.get l)).2)
           then "Success" else "Failure",
         toString env.elapsed ++ "ms"] := by
  have hiff := response_contains_iff env hperm
  rw [run_hooks_eval env hne hok]
  by_cases hall :
      (detect env).all (fun l => succeededOf (verify env (Hook.get l)).2) = true
  · have hC : ((env.hashIter (foldInsert env (detect env) [])).map
        (fun p => p.2.1)).contains false = false := by
      cases hc : ((env.hashIter (foldInsert env (detect env) [])).map
          (fun p => p.2.1)).contains false
      · rfl
      · exact absurd hall (hiff.mp hc)
    refine ⟨?_, ?_, ?_⟩
    · rw [hC]
      simp [hall]
    · intro hfalse
      rw [hall] at hfalse
      cases hfalse
    · intro tbl htbl
      rw [printedTables_append, printedTables_flatten_verify] at htbl
      simp only [List.nil_append, printedTables, List.filterMap_cons,
        List.filterMap_nil] at htbl
      rw [List.mem_singleton] at htbl
      subst htbl
      rw [show (["Language", "Status", "Take"] ::
          ((env.hashIter (foldInsert env (detect env) [])).map (fun p =>
            [p.1, if p.2.1 then "Success" else "Failure", toString p.2.2 ++ "ms"]) ++
          [if ((env.hashIter (foldInsert env (detect env) [])).map
                (fun p => p.2.1)).contains false then
              ["All", "Failure", toString env.elapsed ++ "ms"]
            else ["All", "Success", toString env.elapsed ++ "ms"]])) =
          (["Language", "Status", "Take"] ::
          (env.hashIter (foldInsert env (detect env) [])).map (fun p =>
            [p.1, if p.2.1 then "Success" else "Failure", toString p.2.2 ++ "ms"])) ++
          [if ((env.hashIter (foldInsert env (detect env) [])).map
                (fun p => p.2.1)).contains false then
              ["All", "Failure", toString env.elapsed ++ "ms"]
            else ["All", "Success", toString env.elapsed ++ "ms"]] from rfl]
      rw [List.getLast?_concat]
      rw [hC, hall]
      rfl
  · have hC : ((env.hashIter (foldInsert env (detect env) [])).map
        (fun p => p.2.1)).contains false = true := hiff.mpr hall
    refine ⟨?_, ?_, ?_⟩
    · rw [hC]
      simp only [if_true]
      constructor
      · intro hcontra
        cases hcontra
      · intro hcontra
        exact absurd hcontra hall
    · intro _
      rw [hC]
      rfl
    · intro tbl htbl
      rw [printedTables_append, printedTables_flatten_verify] at htbl
      simp only [List.nil_append, printedTables, List.filterMap_cons,
        List.filterMap_nil] at htbl
      rw [List.mem_singleton] at htbl
      subst htbl
      rw [show (["Language", "Status", "Take"] ::
          ((env.hashIter (foldInsert env (detect env) [])).map (fun p =>
            [p.1, if p.2.1 then "Success" else "Failure", toString p.2.2 ++ "ms"]) ++
          [if ((env.hashIter (foldInsert env (detect env) [])).map
                (fun p => p.2.1)).contains false then
              ["All", "Failure", toString env.elapsed ++ "ms"]
            else ["All", "Success", toString env.elapsed ++ "ms"]])) =
          (["Language", "Status", "Take"] ::
          (env.hashIter (foldInsert env (detect env) [])).map (fun p =>
            [p.1, if p.2.1 then "Success" else "Failure", toString p.2.2 ++ "ms"])) ++
          [if ((env.hashIter (foldInsert env (detect env) [])).map
                (fun p => p.2.1)).contains false then
              ["All", "Failure", toString env.elapsed ++ "ms"]
            else ["All", "Success", toString env.elapsed ++ "ms"]] from rfl]
      rw [List.getLast?_concat]
      rw [hC]
      have hfb : (detect env).all
          (fun l => succeededOf (verify env (Hook.get l)).2) = false := by
        cases hb : (detect env).all (fun l => succeededOf (verify env (Hook.get l)).2)
        · rfl
        · exact absurd hb hall
      rw [hfb]
      rfl

/-- Witness for C2 at a concrete environment detecting only Java, all
hooks passing. -/
theorem c2_run_hooks_aggregate_witness :
    (run_hooks envAllPass).2 = Outcome.ok 0 :=
  ((c2_run_hooks_aggregate envAllPass (by decide) (fun m => List.Perm.refl m)
    (by decide)).1).mpr (by decide)

/-- C5 counterexample: with Java and Kotlin detected (in that order) and
the hash map iterated in reverse — one of the unspecified orders of Rust's
`HashMap` — the printed rows list Kotlin before Java, so the rows are not
in detection order. -/
theorem c5_rows_order_counterexample :
    detect envTwoRev = [Language.Java, Language.Kotlin] ∧
    printedTables (run_hooks envTwoRev).1 =
      [[["Language", "Status", "Take"],
        ["Kotlin", "Success", "5ms"],
        ["Java", "Success", "5ms"],
        ["All", "Success", "5ms"]]] ∧
    ∀ tbl ∈ printedTables (run_hooks envTwoRev).1,
      (tbl.drop 1).dropLast.filterMap List.head? ≠
        (detect envTwoRev).map Language.name := by
  decide

/-- C5 amended: exactly one report row per distinct detected language, in
an unspecified hash-map iteration order (not necessarily detection order),
headed by the column row, with the "All" aggregate row last. -/
theorem c5_one_row_per_language (env : Env)
    (hne : detect env ≠ [])
    (hperm : ∀ m, (env.hashIter m).Perm m)
    (hok : ∀ l ∈ detect env, ((verify env (Hook.get l)).2).isOk = true) :
    printedTables (run_hooks env).1 ≠ [] ∧
    ∀ tbl ∈ printedTables (run_hooks env).1,
      tbl.head? = some ["Language", "Status", "Take"] ∧
      (∃ rest, tbl.getLast? = some ("All" :: rest)) ∧
      ((tbl.drop 1).dropLast.filterMap List.head?).Nodup ∧
      (∀ s, s ∈ (tbl.drop 1).dropLast.filterMap List.head? ↔
        s ∈ (detect env).map Language.name) := by
  rw [run_hooks_eval env hne hok]
  rw [printedTables_append, printedTables_flatten_verify]
  constructor
  · simp [printedTables]
  · intro tbl htbl
    simp only [List.nil_append, printedTables, List.filterMap_cons,
      List.filterMap_nil] at htbl
    rw [List.mem_singleton] at htbl
    subst htbl
    refine ⟨rfl, ?_, ?_, ?_⟩
    · rw [getLast_cons_concat]
      cases hcc : ((env.hashIter (foldInsert env (detect env) [])).map
          (fun p => p.2.1)).contains false
      · exact ⟨_, rfl⟩
      · exact ⟨_, rfl⟩
    · rw [drop_one_cons, List.dropLast_concat, filterMap_head_rows]
      have hnd : ((foldInsert env (detect env) []).map Prod.fst).Nodup :=
        keys_nodup_foldInsert env (detect env) [] (by simp)
      exact ((hperm (foldInsert env (detect env) [])).map Prod.fst).nodup_iff.mpr hnd
    · intro s
      rw [drop_one_cons, List.dropLast_concat, filterMap_head_rows]
      rw [List.Perm.mem_iff ((hperm (foldInsert env (detect env) [])).map Prod.fst)]
      rw [mem_keys_foldInsert env (detect env) [] s]
      simp [List.mem_map, eq_comm]

/-- Witness for the amended C5 at a concrete two-language environment. -/
theorem c5_one_row_per_language_witness :
    printedTables (run_hooks envTwoRev).1 ≠ [] ∧
    ∀ tbl ∈ printedTables (run_hooks envTwoRev).1,
      tbl.head? = some ["Language", "Status", "Take"] ∧
      (∃ rest, tbl.getLast? = some ("All" :: rest)) ∧
      ((tbl.drop 1).dropLast.filterMap List.head?).Nodup ∧
      (∀ s, s ∈ (tbl.drop 1).dropLast.filterMap List.head? ↔
        s ∈ (detect envTwoRev).map Language.name) :=
  c5_one_row_per_language envTwoRev (by decide) (fun m => List.reverse_perm m)
    (by decide)

/-- C9: when creating a state directory or a log file fails for a hook,
the whole run aborts at once: `verify` stops with the propagated I/O error
before running that hook's command (or any later hook of the language),
`run_hooks` returns the "Failed to run hook" error, no report is printed,
and the only commands that ran are those of the earlier languages plus the
failing language's earlier hooks. -/
theorem c9_setup_failure_aborts (env : Env) (pre post : List Language)
    (lang : Language) (pre2 post2 : List Hook) (h : Hook)
    (hdetect : detect env = pre ++ lang :: post)
    (hpre : ∀ l ∈ pre, ((verify env (Hook.get l)).2).isOk = true)
    (hhooks : Hook.get lang = pre2 ++ h :: post2)
    (hroot : env.createDirOk "breathes" = true)
    (hpre2 : ∀ h' ∈ pre2, hookSetupOk env h' = true ∧ env.exec h' ≠ .panicked)
    (hbad : hookSetupOk env h = false) :
    (run_hooks env).2 = .err .failedToRunHook ∧
    printedTables (run_hooks env).1 = [] ∧
    commandsRun (run_hooks env).1 =
      (pre.map (fun l => commandsRun (verify env (Hook.get l)).1)).flatten ++
        pre2.map (fun x => x.command) := by
  have hvl := verifyLoop_err env pre2 post2 h hpre2 hbad
  have hverr : (verify env (Hook.get lang)).2 = .err .ioSetup ∧
      commandsRun (verify env (Hook.get lang)).1 =
        pre2.map (fun x => x.command) := by
    rw [hhooks]
    unfold verify
    simp only [hroot, if_true]
    cases hvv : verifyLoop env (pre2 ++ h :: post2) with
    | mk tr o =>
        obtain ⟨h1, h2⟩ := hvl
        rw [hvv] at h1 h2
        simp only at h1 h2
        subst h1
        refine ⟨rfl, ?_⟩
        simpa [commandsRun] using h2
  have hloop := runHooksLoop_err env pre post lang [] hpre ⟨.ioSetup, hverr.1⟩
  have hemp : (detect env).isEmpty = false := by
    rw [hdetect]
    cases pre <;> rfl
  unfold run_hooks
  simp only [hemp, Bool.false_eq_true, if_false]
  rw [hdetect]
  have hpair : runHooksLoop env (pre ++ lang :: post) [] =
      ((runHooksLoop env (pre ++ lang :: post) []).1,
       Outcome.err RunErr.failedToRunHook) := by
    rw [← hloop.1]
  rw [hpair]
  refine ⟨rfl, ?_, ?_⟩
  · show printedTables (runHooksLoop env (pre ++ lang :: post) []).1 = []
    rw [hloop.2, printedTables_append, printedTables_flatten_verify,
      printedTables_verify]
    rfl
  · show commandsRun (runHooksLoop env (pre ++ lang :: post) []).1 = _
    rw [hloop.2, commandsRun_append, hverr.2, commandsRun_flatten, List.map_map]
    rfl

/-- Witness for C9: a root detecting only Java where every log-file
creation fails; the run aborts with no report and no command executed. -/
theorem c9_setup_failure_aborts_witness :
    (run_hooks envSetupFail).2 = .err .failedToRunHook ∧
    printedTables (run_hooks envSetupFail).1 = [] ∧
    commandsRun (run_hooks envSetupFail).1 =
      (([] : List Language).map
        (fun l => commandsRun (verify envSetupFail (Hook.get l)).1)).flatten ++
        ([] : List Hook).map (fun x => x.command) :=
  c9_setup_failure_aborts envSetupFail [] [] Language.Java [] []
    ⟨Language.Java, "Checking for outdated packages in your project.",
     "No outdated packages found", "Outdated packages found",
     "outdated.log", "mvn versions:display-dependency-updates"⟩
    (by decide) (by decide) (by decide) (by decide) (by decide) (by decide)

/-- C6 (code bug): for a hook whose command exits non-zero after writing
`boom` to its captured stderr log, the console output of `ok` is exactly
the spinner start and the persisted failure message — the captured stdout
and stderr contents are never read back or dumped to the console,
contradicting both the spec and the function's own documentation comment
("the spinner stops with the error output displayed"). -/
theorem c6_failure_output_not_dumped :
    ok envBoom hookBoom.description hookBoom hookBoom.success hookBoom.failure =
      ([Effect.spinner "Testing", Effect.runCmd "failing-tool",
        Effect.persist "!" "Tests failed"], .ok false) ∧
    envBoom.capturedErr hookBoom = "boom" ∧
    ∀ e ∈ (ok envBoom hookBoom.description hookBoom hookBoom.success
        hookBoom.failure).1,
      "boom" ∉ effectTexts e := by
  decide

end Breath
